import Mathlib

/-!
Verification development for the yeet terminal file manager
(input-to-action concurrency engine).

The definitions below are a shallow embedding of the Rust sources:
  src/yeet-frontend/src/task.rs   (TaskManager, Task, should_abort_on_finish)
  src/yeet-frontend/src/event.rs  (handle_notify_event, Emitter)
  src/yate-keymap/src/map.rs      (KeyMap::default bindings)
Asynchronous task bodies are embedded as pure functions from their inputs
(the relevant filesystem state, inference results, directory entries) to the
sequence of filesystem effects / channel messages they produce together with
their result value.
-/

namespace Yeet

/-- A filesystem path (Rust PathBuf). A path either has a UTF-8 string form
or it does not; non-UTF-8 paths are distinguished by an opaque identifier. -/
inductive FsPath where
  | utf8 (s : String)
  | nonUtf8 (id : Nat)
deriving DecidableEq, Repr

/-- Rust Path::to_str. -/
def FsPath.toStr : FsPath → Option String
  | FsPath.utf8 s => some s
  | FsPath.nonUtf8 _ => none

/-- What a path currently refers to in the model filesystem:
a regular file, a directory, or something else (is_file and is_dir both false). -/
inductive PathKind where
  | file
  | dir
  | other
deriving DecidableEq, Repr

/-- The model filesystem: an association list from paths to their kind.
A path is existent iff it has an entry. -/
def Fs := List (FsPath × PathKind)

/-- Kind lookup in the model filesystem. -/
def kindOf (fs : Fs) (p : FsPath) : Option PathKind :=
  (fs.find? (fun q => decide (q.1 = p))).map Prod.snd

/-- Rust path.exists() over the model filesystem. -/
def fsExists (fs : Fs) (p : FsPath) : Bool :=
  (kindOf fs p).isSome

/-- Position of the last slash in a list of characters, if any. -/
def lastSlashPos : List Char → Option Nat
  | [] => none
  | c :: rest =>
    match lastSlashPos rest with
    | some i => some (i + 1)
    | none => if c = '/' then some 0 else none

/-- Rust Path::parent for a UTF-8 path that does not end in a slash:
none for the empty path and for the root, otherwise everything up to the
last slash (the empty string for a bare file name, the root when the last
slash is leading). -/
def rustParent (s : String) : Option String :=
  if s = "" ∨ s = "/" then none
  else
    match lastSlashPos s.toList with
    | none => some ""
    | some 0 => some "/"
    | some i => some (String.mk (s.toList.take i))

/-- One character list is a prefix of another. -/
def charListHasPre : List Char → List Char → Bool
  | [], _ => true
  | _, [] => false
  | a :: as_, b :: bs => decide (a = b) && charListHasPre as_ bs

/-- Rust str::starts_with on the character level. -/
def strStartsWith (s pat : String) : Bool :=
  charListHasPre pat.toList s.toList

/-- Rust str::ends_with on the character level. -/
def strEndsWith (s pat : String) : Bool :=
  charListHasPre pat.toList.reverse s.toList.reverse

/-- Split a character list at every occurrence of a separator character. -/
def splitOnChar (c : Char) : List Char → List (List Char)
  | [] => [[]]
  | x :: xs =>
    let r := splitOnChar c xs
    if x = c then [] :: r
    else
      match r with
      | h :: t => (x :: h) :: t
      | [] => [[x]]

/-- Rust str::lines: split at newline characters, the final line ending is
optional, and a trailing carriage return is stripped from each line. -/
def rustLines (s : String) : List String :=
  let parts := splitOnChar '\n' s.toList
  let parts := if parts.getLast? = some [] then parts.dropLast else parts
  parts.map (fun l => String.mk (if l.getLast? = some '\r' then l.dropLast else l))

/-- ContentKind from yeet-keymap (directory entry classification). -/
inductive ContentKind where
  | directory
  | file
deriving DecidableEq, Repr

/-- Modal context of the key resolver. -/
inductive Mode where
  | command
  | insert
  | navigation
  | normal
deriving DecidableEq, Repr

/-- Key codes used by the embedded bindings (KeyCode in yate-keymap). -/
inductive KeyCode where
  | char (c : Char)
  | esc
  | enter
  | backspace
  | delete
  | left
  | right
deriving DecidableEq, Repr

/-- Key modifiers (KeyModifier in yate-keymap). -/
inductive KeyModifier where
  | ctrl
  | shift
  | alt
deriving DecidableEq, Repr

/-- A key: a code plus its modifiers (Key::new(code, modifiers)). -/
structure Key where
  code : KeyCode
  modifiers : List KeyModifier
deriving DecidableEq, Repr

/-- Cursor motions (CursorDirection). -/
inductive CursorDirection where
  | bottom
  | down
  | left
  | lineEnd
  | lineStart
  | right
  | top
  | up
deriving DecidableEq, Repr

/-- Viewport motions (ViewPortDirection). -/
inductive ViewPortDirection where
  | bottomOnCursor
  | centerOnCursor
  | halfPageDown
  | halfPageUp
  | topOnCursor
deriving DecidableEq, Repr

/-- NewLineDirection for insert-new-line modifications. -/
inductive NewLineDirection where
  | above
  | under
deriving DecidableEq, Repr

/-- Text modifications referenced by the embedded bindings. -/
inductive TextModification where
  | deleteCharBeforeCursor
  | deleteCharOnCursor
  | deleteLineOnCursor
  | insertNewLine (d : NewLineDirection)
deriving DecidableEq, Repr

/-- The semantic Message vocabulary (yeet_keymap::message::Message), restricted
to the variants the embedded code produces.  The moveCursor, changeMode and
textInsertion variants carry the resolver outputs described by the spec
(a Motion with its attached repeat count, a mode change, literal text input). -/
inductive Message where
  | changeMode (m : Mode)
  | executeCommand
  | modification (t : TextModification)
  | moveCursor (count : Nat) (d : CursorDirection)
  | moveViewPort (d : ViewPortDirection)
  | navigateToPath (p : FsPath)
  | pathEnumerationContentChanged (p : FsPath) (contents : List (ContentKind × String))
  | pathEnumerationFinished (p : FsPath)
  | pathRemoved (p : FsPath)
  | pathsAdded (paths : List FsPath)
  | pathsWriteFinished (paths : List FsPath)
  | previewLoaded (p : FsPath) (lines : List String)
  | resize (x y : Nat)
  | selectCurrent
  | selectParent
  | textInsertion (k : Key)
deriving DecidableEq, Repr

/-- Opaque model of a register entry (payload identity only). -/
structure RegisterEntry where
  id : Nat
deriving DecidableEq, Repr

/-- Opaque model of the History value carried by Task::SaveHistory. -/
structure History where
  id : Nat
deriving DecidableEq, Repr

/-- The Task enum from task.rs: the identity of a unit of background work.
Equality (derived) is the cancellation/dedup key, as in the Rust derive. -/
inductive Task where
  | addPath (path : FsPath)
  | deletePath (path : FsPath)
  | deleteRegisterEntry (entry : RegisterEntry)
  | emitMessages (messages : List Message)
  | enumerateDirectory (path : FsPath)
  | loadPreview (path : FsPath)
  | optimizeHistory
  | renamePath (old new_ : FsPath)
  | restorePath (entry : RegisterEntry) (path : FsPath)
  | saveHistory (history : History)
  | trashPath (entry : RegisterEntry)
  | yankPath (entry : RegisterEntry)
deriving DecidableEq, Repr

/-- AppError from error.rs, as used by task.rs: an invalid-target error,
a wrapped I/O failure (payload abstracted to a message string), and the
aggregate of all errors surfaced during finishing. -/
inductive AppError where
  | aggregate (errors : List AppError)
  | fileOperationFailed (msg : String)
  | invalidTargetPath

/-- should_abort_on_finish from task.rs: the static per-variant shutdown
policy (true = abort on finish, false = must run to completion). -/
def should_abort_on_finish : Task → Bool
  | Task.addPath _ => false
  | Task.deletePath _ => false
  | Task.deleteRegisterEntry _ => false
  | Task.emitMessages _ => true
  | Task.enumerateDirectory _ => true
  | Task.loadPreview _ => true
  | Task.optimizeHistory => false
  | Task.renamePath _ _ => false
  | Task.restorePath _ _ => false
  | Task.saveHistory _ => false
  | Task.trashPath _ => false
  | Task.yankPath _ => false

/-- TaskManager state: the tracked (Task, AbortHandle) pairs, with abort
handles modelled as the numeric identifiers of spawned operations, plus a
counter supplying fresh identifiers (each JoinSet::spawn yields a new task). -/
structure TaskManager where
  abort_handles : List (Task × Nat)
  next_id : Nat
deriving DecidableEq, Repr

/-- A fresh TaskManager (TaskManager::new). -/
def TaskManager.new : TaskManager := ⟨[], 0⟩

/-- Observable actions of a run/abort call: spawning the operation with a
given handle identifier, and invoking a handle for cancellation. -/
inductive RunEvent where
  | spawned (id : Nat)
  | aborted (id : Nat)
deriving DecidableEq, Repr

/-- Vec::iter().position(|(t, _)| t == task) followed by Vec::remove(index):
returns the removed handle and the remaining list, or none when no tracked
task equals the given one. -/
def removeByKey : List (Task × Nat) → Task → Option (Nat × List (Task × Nat))
  | [], _ => none
  | (t', h) :: rest, t =>
    if t' = t then some (h, rest)
    else
      match removeByKey rest t with
      | some (h', rest') => some (h', (t', h) :: rest')
      | none => none

/-- TaskManager::run, as state transformer plus the ordered list of its
observable actions.  The source first spawns the new operation on the
JoinSet (obtaining its abort handle), then looks up a tracked task of equal
identity, aborts and removes it when present, and finally pushes the new
(task, handle) pair. -/
def TaskManager.run (m : TaskManager) (t : Task) : TaskManager × List RunEvent :=
  let id := m.next_id
  match removeByKey m.abort_handles t with
  | some (h, rest) =>
    (⟨rest ++ [(t, id)], id + 1⟩, [RunEvent.spawned id, RunEvent.aborted h])
  | none =>
    (⟨m.abort_handles ++ [(t, id)], id + 1⟩, [RunEvent.spawned id])

/-- TaskManager::abort: cancel and untrack the handle for that exact
identity, if present; no-op otherwise. -/
def TaskManager.abort (m : TaskManager) (t : Task) : TaskManager × List RunEvent :=
  match removeByKey m.abort_handles t with
  | some (h, rest) => (⟨rest, m.next_id⟩, [RunEvent.aborted h])
  | none => (m, [])

/-- A run or abort request issued to the task manager. -/
inductive TMOp where
  | runOp (t : Task)
  | abortOp (t : Task)

/-- Apply a sequence of run/abort calls to a task manager state. -/
def applyOps (m : TaskManager) : List TMOp → TaskManager
  | [] => m
  | op :: rest =>
    match op with
    | TMOp.runOp t => applyOps (m.run t).1 rest
    | TMOp.abortOp t => applyOps (m.abort t).1 rest

/-- Number of tracked handles whose task identity equals t. -/
def keyCount (l : List (Task × Nat)) (t : Task) : Nat :=
  (l.filter (fun p => decide (p.1 = t))).length

/-- Outcome of JoinSet::join_next for one spawned operation: it ran to
completion returning Ok, it ran to completion returning an AppError, or the
join itself failed (the operation was cancelled or panicked). -/
inductive JoinResult where
  | success
  | failure (e : AppError)
  | cancelled

/-- The handle identifiers finishing aborts while draining the tracked
pairs: those of the tasks flagged by should_abort_on_finish. -/
def abortedOnFinish (handles : List (Task × Nat)) : List Nat :=
  handles.filterMap (fun p => if should_abort_on_finish p.1 then some p.2 else none)

/-- The AppErrors the join loop of finishing collects from the joined
outcomes: Ok(Err(error)) pushes the error, Ok(Ok(())) and failed joins
(cancelled or panicked operations) are skipped. -/
def surfacedErrors (results : List JoinResult) : List AppError :=
  results.filterMap
    (fun r => match r with | JoinResult.failure e => some e | _ => none)

/-- TaskManager::finishing: drain the tracked handles, aborting exactly the
variants flagged by should_abort_on_finish, then join every spawned
operation, collecting each surfaced AppError (join failures are ignored);
returns Ok iff no error was collected, otherwise the aggregate of all of
them.  The joined outcomes, in completion order, are the second argument.
Returns the list of handle identifiers that were aborted and the result. -/
def TaskManager.finishing (m : TaskManager) (results : List JoinResult) :
    List Nat × Except AppError Unit :=
  (abortedOnFinish m.abort_handles,
   if (surfacedErrors results).isEmpty then Except.ok ()
   else Except.error (AppError.aggregate (surfacedErrors results)))

/-- Filesystem effects requested by the path-mutation task bodies. -/
inductive FsEffect where
  | createDirAll (p : FsPath)
  | writeFile (p : FsPath)
  | removeFile (p : FsPath)
  | removeDirAll (p : FsPath)
  | rename (old new_ : FsPath)
deriving DecidableEq, Repr

/-- Body of Task::AddPath: error when the path exists; otherwise, for a
UTF-8 path ending in a slash create it as a directory with all ancestors;
for another UTF-8 path error when it has no parent, else create the parent
directories and write an empty file; for a non-UTF-8 path do nothing and
succeed.  Returns the requested effects and the result. -/
def runAddPath (fs : Fs) (path : FsPath) : List FsEffect × Except AppError Unit :=
  if fsExists fs path then ([], Except.error AppError.invalidTargetPath)
  else
    match path with
    | FsPath.utf8 s =>
      if strEndsWith s "/" then ([FsEffect.createDirAll path], Except.ok ())
      else
        match rustParent s with
        | none => ([], Except.error AppError.invalidTargetPath)
        | some par =>
          ([FsEffect.createDirAll (FsPath.utf8 par), FsEffect.writeFile path], Except.ok ())
    | FsPath.nonUtf8 _ => ([], Except.ok ())

/-- Body of Task::DeletePath: error when the path does not exist; remove the
file when it is a file, remove the tree when it is a directory, otherwise
do nothing and succeed. -/
def runDeletePath (fs : Fs) (path : FsPath) : List FsEffect × Except AppError Unit :=
  if fsExists fs path = false then ([], Except.error AppError.invalidTargetPath)
  else if kindOf fs path = some PathKind.file then ([FsEffect.removeFile path], Except.ok ())
  else if kindOf fs path = some PathKind.dir then ([FsEffect.removeDirAll path], Except.ok ())
  else ([], Except.ok ())

/-- Body of Task::RenamePath: error when the source does not exist,
otherwise rename. -/
def runRenamePath (fs : Fs) (old new_ : FsPath) : List FsEffect × Except AppError Unit :=
  if fsExists fs old = false then ([], Except.error AppError.invalidTargetPath)
  else ([FsEffect.rename old new_], Except.ok ())

/-- The read loop of Task::EnumerateDirectory: entries still to read, the
cache of entries read so far, and the current batch threshold (cache_size).
Each entry is pushed onto the cache; whenever the cache length reaches the
threshold an incremental content Message with the whole cache is sent and
the threshold doubles.  Returns the Messages sent inside the loop and the
final cache. -/
def enumGo (path : FsPath) :
    List (ContentKind × String) → List (ContentKind × String) → Nat →
    List Message × List (ContentKind × String)
  | [], cache, _ => ([], cache)
  | e :: rest, cache, size =>
    if size ≤ (cache ++ [e]).length then
      (Message.pathEnumerationContentChanged path (cache ++ [e])
          :: (enumGo path rest (cache ++ [e]) (size * 2)).1,
       (enumGo path rest (cache ++ [e]) (size * 2)).2)
    else
      enumGo path rest (cache ++ [e]) size

/-- Messages emitted by the body of Task::EnumerateDirectory on its success
path, for a directory whose read yields the given entries in order
(each entry abstracted to its ContentKind and file-name string).  The loop
starts with an empty cache and cache_size = 100; afterwards one content
Message with everything read and one finished Message are always sent. -/
def enumerateDirectory (path : FsPath) (entries : List (ContentKind × String)) :
    List Message :=
  (enumGo path entries [] 100).1
    ++ [Message.pathEnumerationContentChanged path (enumGo path entries [] 100).2,
        Message.pathEnumerationFinished path]

/-- The flush thresholds the spec describes: starting from the initial batch
size, every threshold that is reached by n entries, doubling after each
flush. -/
def specThresholds (n : Nat) (size : Nat) : List Nat :=
  if h : 0 < size ∧ size ≤ n then size :: specThresholds n (size * 2) else []
termination_by n + 1 - size
decreasing_by
  rcases h with ⟨h1, h2⟩
  omega

/-- Observable steps of the body of Task::LoadPreview: the content-type
inspection, the file read, and a Message sent to the channel. -/
inductive PvEvent where
  | inferred
  | readFile
  | sent (m : Message)
deriving DecidableEq, Repr

/-- Body of Task::LoadPreview: first infer::get_from_path inspects the
content type (an I/O error there propagates); when a type was inferred and
its mime type does not start with "text", return Ok without reading; in the
remaining cases read the file to a string (an error propagates) and send a
PreviewLoaded Message with its lines.  The inference outcome and the read
outcome are the task's inputs. -/
def runLoadPreview (path : FsPath) (inferRes : Except AppError (Option String))
    (readRes : Except AppError String) : List PvEvent × Except AppError Unit :=
  let rd : Unit → List PvEvent × Except AppError Unit := fun _ =>
    match readRes with
    | Except.error e => ([PvEvent.inferred, PvEvent.readFile], Except.error e)
    | Except.ok content =>
      ([PvEvent.inferred, PvEvent.readFile,
        PvEvent.sent (Message.previewLoaded path (rustLines content))], Except.ok ())
  match inferRes with
  | Except.error e => ([PvEvent.inferred], Except.error e)
  | Except.ok (some mime) =>
    if strStartsWith mime "text" = false then ([PvEvent.inferred], Except.ok ())
    else rd ()
  | Except.ok none => rd ()

/-- notify::event::DataChange. -/
inductive DataChange where
  | any
  | size
  | content
  | other
deriving DecidableEq, Repr

/-- notify::event::MetadataKind. -/
inductive MetadataKind where
  | any
  | accessTime
  | writeTime
  | permissions
  | ownership
  | extended
  | other
deriving DecidableEq, Repr

/-- notify::event::RenameMode. -/
inductive RenameMode where
  | any
  | to
  | from_
  | both
  | other
deriving DecidableEq, Repr

/-- notify::event::ModifyKind. -/
inductive ModifyKind where
  | any
  | data (c : DataChange)
  | metadata (k : MetadataKind)
  | name (m : RenameMode)
  | other
deriving DecidableEq, Repr

/-- notify::event::AccessMode. -/
inductive AccessMode where
  | any
  | execute
  | read
  | write
  | other
deriving DecidableEq, Repr

/-- notify::event::AccessKind. -/
inductive AccessKind where
  | any
  | read
  | open_ (m : AccessMode)
  | close (m : AccessMode)
  | other
deriving DecidableEq, Repr

/-- notify::event::CreateKind. -/
inductive CreateKind where
  | any
  | file
  | folder
  | other
deriving DecidableEq, Repr

/-- notify::event::RemoveKind. -/
inductive RemoveKind where
  | any
  | file
  | folder
  | other
deriving DecidableEq, Repr

/-- notify::EventKind. -/
inductive EventKind where
  | any
  | access (k : AccessKind)
  | create (k : CreateKind)
  | modify (k : ModifyKind)
  | remove (k : RemoveKind)
  | other
deriving DecidableEq, Repr

/-- A notify::Event: its kind, its associated paths, and the rescan flag of
its attributes (Event::need_rescan()). -/
structure NotifyEvent where
  kind : EventKind
  paths : List FsPath
  rescan : Bool
deriving DecidableEq, Repr

/-- handle_notify_event from event.rs: translate one raw filesystem event
into Messages.  The need_rescan check in the source has an empty body; the
kind alone decides.  Close-after-write, create and remove events map each
path to one Message; a rename-both event with exactly two paths yields a
PathRemoved for the first and a PathsAdded for the second; every other case
yields no Message. -/
def handle_notify_event (e : NotifyEvent) : Option (List Message) :=
  match e.kind with
  | EventKind.access (AccessKind.close AccessMode.write) =>
    some (e.paths.map (fun p => Message.pathsWriteFinished [p]))
  | EventKind.create _ =>
    some (e.paths.map (fun p => Message.pathsAdded [p]))
  | EventKind.modify (ModifyKind.name RenameMode.both) =>
    match e.paths with
    | [a, b] => some [Message.pathRemoved a, Message.pathsAdded [b]]
    | _ => none
  | EventKind.remove _ =>
    some (e.paths.map (fun p => Message.pathRemoved p))
  | _ => none

/-- Binding from yate-keymap: the action a resolved chord maps to. -/
inductive Binding where
  | message (m : Message)
  | mode (m : Mode)
  | modeAndTextModification (m : Mode) (t : TextModification)
  | motion (d : CursorDirection)
  | repeatDigit (d : Nat)
  | repeatOrMotion (d : Nat) (dir : CursorDirection)
deriving DecidableEq, Repr

/-- The Normal-mode mapping list of KeyMap::default from
src/yate-keymap/src/map.rs, in source order.  repeatDigit embeds
Binding::Repeat. -/
def normalMappings : List (List Key × Binding) :=
  [ ([⟨KeyCode.esc, []⟩], Binding.mode Mode.navigation),
    ([⟨KeyCode.char '0', []⟩], Binding.repeatOrMotion 0 CursorDirection.lineStart),
    ([⟨KeyCode.char '1', []⟩], Binding.repeatDigit 1),
    ([⟨KeyCode.char '2', []⟩], Binding.repeatDigit 2),
    ([⟨KeyCode.char '3', []⟩], Binding.repeatDigit 3),
    ([⟨KeyCode.char '4', []⟩], Binding.repeatDigit 4),
    ([⟨KeyCode.char '5', []⟩], Binding.repeatDigit 5),
    ([⟨KeyCode.char '6', []⟩], Binding.repeatDigit 6),
    ([⟨KeyCode.char '7', []⟩], Binding.repeatDigit 7),
    ([⟨KeyCode.char '8', []⟩], Binding.repeatDigit 8),
    ([⟨KeyCode.char '9', []⟩], Binding.repeatDigit 9),
    ([⟨KeyCode.char ':', []⟩], Binding.mode Mode.command),
    ([⟨KeyCode.char '$', []⟩], Binding.motion CursorDirection.lineEnd),
    ([⟨KeyCode.char 'd', [KeyModifier.ctrl]⟩],
      Binding.message (Message.moveViewPort ViewPortDirection.halfPageDown)),
    ([⟨KeyCode.char 'd', []⟩, ⟨KeyCode.char 'd', []⟩],
      Binding.message (Message.modification TextModification.deleteLineOnCursor)),
    ([⟨KeyCode.char 'g', [KeyModifier.shift]⟩], Binding.motion CursorDirection.bottom),
    ([⟨KeyCode.char 'g', []⟩, ⟨KeyCode.char 'g', []⟩], Binding.motion CursorDirection.top),
    ([⟨KeyCode.char 'h', []⟩], Binding.motion CursorDirection.left),
    ([⟨KeyCode.char 'j', []⟩], Binding.motion CursorDirection.down),
    ([⟨KeyCode.char 'k', []⟩], Binding.motion CursorDirection.up),
    ([⟨KeyCode.char 'l', []⟩], Binding.motion CursorDirection.right),
    ([⟨KeyCode.char 'o', []⟩],
      Binding.modeAndTextModification Mode.insert
        (TextModification.insertNewLine NewLineDirection.under)),
    ([⟨KeyCode.char 'o', [KeyModifier.shift]⟩],
      Binding.modeAndTextModification Mode.insert
        (TextModification.insertNewLine NewLineDirection.above)),
    ([⟨KeyCode.char 'u', [KeyModifier.ctrl]⟩],
      Binding.message (Message.moveViewPort ViewPortDirection.halfPageUp)),
    ([⟨KeyCode.char 'z', []⟩, ⟨KeyCode.char 'b', []⟩],
      Binding.message (Message.moveViewPort ViewPortDirection.bottomOnCursor)),
    ([⟨KeyCode.char 'z', []⟩, ⟨KeyCode.char 't', []⟩],
      Binding.message (Message.moveViewPort ViewPortDirection.topOnCursor)),
    ([⟨KeyCode.char 'z', []⟩, ⟨KeyCode.char 'z', []⟩],
      Binding.message (Message.moveViewPort ViewPortDirection.centerOnCursor)) ]

/-- The binding table of a mode.  Only the Normal-mode table (the one the
claims exercise) is embedded; the other modes' tables are left empty here
and no claim is settled about them. -/
def mappingsFor : Mode → List (List Key × Binding)
  | Mode.normal => normalMappings
  | _ => []

/-- Sequence a is a prefix of sequence b. -/
def isSeqPre : List Key → List Key → Bool
  | [], _ => true
  | _, [] => false
  | a :: as_, b :: bs => decide (a = b) && isSeqPre as_ bs

/-- Result of looking up a pending key sequence in a mode's binding table. -/
inductive LookupResult where
  | terminal (b : Binding)
  | pending
  | unmatched
deriving DecidableEq, Repr

/-- Modelled from the spec: the KeyTree lookup (tree.rs of yate-keymap is not
part of the sources).  The table is a trie over key sequences; a sequence
that exactly matches a mapping with no longer mapping continuing it resolves
to that terminal Binding, a sequence that is a proper prefix of some mapping
stays pending, and anything else is unmatched. -/
def lookupSequence (mappings : List (List Key × Binding)) (seq : List Key) :
    LookupResult :=
  let hasLonger := mappings.any (fun m => decide (m.1 ≠ seq) && isSeqPre seq m.1)
  match mappings.find? (fun m => decide (m.1 = seq)) with
  | some m => if hasLonger then LookupResult.pending else LookupResult.terminal m.2
  | none => if hasLonger then LookupResult.pending else LookupResult.unmatched

/-- Modelled from the spec: the resolver state of MessageResolver (lib.rs /
buffer.rs of the keymap crate are not part of the sources) — the current
mode, the pending key sequence, and the optional accumulated repeat count. -/
structure MessageResolver where
  mode : Mode
  buffer : List Key
  count : Option Nat
deriving DecidableEq, Repr

/-- Modelled from the spec: resolution of a terminal Binding (spec 4.1 step
3).  Repeat digits extend the accumulated count (count = count * 10 + d) and
emit nothing; RepeatOrMotion behaves as Repeat while a nonzero count is
accumulating and as its Motion otherwise; a Motion closes the sequence and
emits one Message carrying the accumulated count (default 1); a literal
Message binding emits its Message; a mode change emits a mode-change
Message and clears pending state; ModeAndModification emits the mode-change
Message then the modification Message. -/
def resolveBinding (r : MessageResolver) (b : Binding) :
    MessageResolver × List Message :=
  match b with
  | Binding.repeatDigit d =>
    ({ r with buffer := [], count := some ((r.count.getD 0) * 10 + d) }, [])
  | Binding.repeatOrMotion d dir =>
    if r.count.getD 0 ≠ 0 then
      ({ r with buffer := [], count := some ((r.count.getD 0) * 10 + d) }, [])
    else
      ({ r with buffer := [], count := none },
       [Message.moveCursor (r.count.getD 1) dir])
  | Binding.motion dir =>
    ({ r with buffer := [], count := none },
     [Message.moveCursor (r.count.getD 1) dir])
  | Binding.message m =>
    ({ r with buffer := [], count := none }, [m])
  | Binding.mode m =>
    ({ mode := m, buffer := [], count := none }, [Message.changeMode m])
  | Binding.modeAndTextModification m t =>
    ({ mode := m, buffer := [], count := none },
     [Message.changeMode m, Message.modification t])

/-- Modelled from the spec: MessageResolver::add_and_resolve (spec 4.1).
Append the key to the pending sequence and look it up in the current mode's
binding table: on no match reset the sequence and count, emitting a single
text-insertion Message in the literal-input modes (Insert, Command) and
nothing otherwise; on an ambiguous prefix stay pending and emit nothing; on
an unambiguous terminal match resolve the Binding. -/
def addAndResolve (r : MessageResolver) (k : Key) : MessageResolver × List Message :=
  let seq := r.buffer ++ [k]
  match lookupSequence (mappingsFor r.mode) seq with
  | LookupResult.pending => ({ r with buffer := seq }, [])
  | LookupResult.unmatched =>
    let r2 := { r with buffer := ([] : List Key), count := (none : Option Nat) }
    if r.mode = Mode.insert ∨ r.mode = Mode.command then (r2, [Message.textInsertion k])
    else (r2, [])
  | LookupResult.terminal b => resolveBinding r b

/-- C4 (confirmed): a rename-style filesystem event (kind
Modify(Name(Both))) with exactly two paths yields exactly the two Messages
path-removed of the first path then paths-added of the second, in that
order; with any other number of paths it yields no Message. -/
theorem rename_event_two_paths (e : NotifyEvent)
    (hk : e.kind = EventKind.modify (ModifyKind.name RenameMode.both)) :
    (∀ a b, e.paths = [a, b] →
      handle_notify_event e = some [Message.pathRemoved a, Message.pathsAdded [b]]) ∧
    (e.paths.length ≠ 2 → handle_notify_event e = none) := by
  obtain ⟨k, ps, rs⟩ := e
  simp only at hk
  subst hk
  constructor
  · intro a b hp
    simp only at hp
    subst hp
    rfl
  · intro hl
    simp only at hl
    match ps, hl with
    | [], _ => rfl
    | [a], _ => rfl
    | [a, b], h => exact absurd rfl h
    | a :: b :: c :: t, _ => rfl

/-- C4 witness: a concrete rename-both event with two paths. -/
theorem rename_event_two_paths_witness :
    handle_notify_event
        ⟨EventKind.modify (ModifyKind.name RenameMode.both),
          [FsPath.utf8 "a", FsPath.utf8 "b"], false⟩
      = some [Message.pathRemoved (FsPath.utf8 "a"),
              Message.pathsAdded [FsPath.utf8 "b"]] :=
  (rename_event_two_paths
      ⟨EventKind.modify (ModifyKind.name RenameMode.both),
        [FsPath.utf8 "a", FsPath.utf8 "b"], false⟩ rfl).1
    (FsPath.utf8 "a") (FsPath.utf8 "b") rfl

/-- C8 (amended): an event whose kind is a metadata-only modify, the generic
any kind, an access other than close-after-write, or the other kind is
dropped without a Message; the need-rescan flag plays no part in the
translation. -/
theorem dropped_event_kinds (e : NotifyEvent)
    (hk : (∃ mk, e.kind = EventKind.modify (ModifyKind.metadata mk)) ∨
          e.kind = EventKind.any ∨
          (∃ ak, e.kind = EventKind.access ak ∧ ak ≠ AccessKind.close AccessMode.write) ∨
          e.kind = EventKind.other) :
    handle_notify_event e = none := by
  obtain ⟨k, ps, rs⟩ := e
  simp only at hk
  rcases hk with ⟨mk, h⟩ | h | ⟨ak, h, hne⟩ | h
  · subst h; rfl
  · subst h; rfl
  · subst h
    cases ak with
    | any => rfl
    | read => rfl
    | open_ m => rfl
    | other => rfl
    | close m =>
      cases m with
      | write => exact absurd rfl hne
      | any => rfl
      | execute => rfl
      | read => rfl
      | other => rfl
  · subst h; rfl

/-- C8 witness: a concrete generic-any event is dropped. -/
theorem dropped_event_kinds_witness :
    handle_notify_event ⟨EventKind.any, [FsPath.utf8 "a"], false⟩ = none :=
  dropped_event_kinds ⟨EventKind.any, [FsPath.utf8 "a"], false⟩ (Or.inr (Or.inl rfl))

/-- C8 counterexample: the need-rescan flag is an event attribute, not a
kind, and the translation ignores it — a rescan-flagged create event is not
dropped, it still yields its paths-added Message. -/
theorem rescan_flag_not_dropped_cex :
    (NotifyEvent.mk (EventKind.create CreateKind.file) [FsPath.utf8 "a"] true).rescan
        = true ∧
    handle_notify_event
        (NotifyEvent.mk (EventKind.create CreateKind.file) [FsPath.utf8 "a"] true)
      = some [Message.pathsAdded [FsPath.utf8 "a"]] ∧
    handle_notify_event
        (NotifyEvent.mk (EventKind.create CreateKind.file) [FsPath.utf8 "a"] true)
      ≠ none := by
  refine ⟨rfl, rfl, ?_⟩
  intro h
  simp [handle_notify_event] at h

/-- C9 (confirmed): a create, remove or close-after-write event with k paths
is translated to exactly k Messages, one per path in the event's path
order, each holding just that path (paths-added, path-removed,
paths-write-finished respectively) — never one Message aggregating all
paths. -/
theorem per_path_event_messages (e : NotifyEvent) :
    ((∃ ck, e.kind = EventKind.create ck) →
      handle_notify_event e = some (e.paths.map (fun p => Message.pathsAdded [p]))) ∧
    ((∃ rk, e.kind = EventKind.remove rk) →
      handle_notify_event e = some (e.paths.map (fun p => Message.pathRemoved p))) ∧
    (e.kind = EventKind.access (AccessKind.close AccessMode.write) →
      handle_notify_event e = some (e.paths.map (fun p => Message.pathsWriteFinished [p]))) := by
  obtain ⟨k, ps, rs⟩ := e
  refine ⟨?_, ?_, ?_⟩
  · rintro ⟨ck, h⟩
    simp only at h
    subst h; rfl
  · rintro ⟨rk, h⟩
    simp only at h
    subst h; rfl
  · intro h
    simp only at h
    subst h; rfl

/-- C9 witness: a create event with two paths yields two singleton
paths-added Messages in path order. -/
theorem per_path_event_messages_witness :
    handle_notify_event
        ⟨EventKind.create CreateKind.file, [FsPath.utf8 "a", FsPath.utf8 "b"], false⟩
      = some [Message.pathsAdded [FsPath.utf8 "a"], Message.pathsAdded [FsPath.utf8 "b"]] :=
  (per_path_event_messages
      ⟨EventKind.create CreateKind.file, [FsPath.utf8 "a", FsPath.utf8 "b"], false⟩).1
    ⟨CreateKind.file, rfl⟩

/-- C5 (confirmed): LoadPreview inspects the content type before any read
(the inference step is always first), content inferred as non-text returns
Ok with no read and no Message, and a preview Message is only ever sent
when the inference did not classify the content as non-text. -/
theorem load_preview_content_type_gate (path : FsPath)
    (ir : Except AppError (Option String)) (rr : Except AppError String) :
    ((runLoadPreview path ir rr).1.head? = some PvEvent.inferred) ∧
    (∀ mime, ir = Except.ok (some mime) → strStartsWith mime "text" = false →
      runLoadPreview path ir rr = ([PvEvent.inferred], Except.ok ())) ∧
    (∀ m mime, PvEvent.sent m ∈ (runLoadPreview path ir rr).1 →
      ir = Except.ok (some mime) → strStartsWith mime "text" = true) := by
  cases ir with
  | error e =>
    refine ⟨rfl, ?_, ?_⟩
    · intro mime h; exact absurd h (by simp)
    · intro m mime hm h; exact absurd h (by simp)
  | ok o =>
    cases o with
    | none =>
      cases rr with
      | error e =>
        refine ⟨rfl, ?_, ?_⟩
        · intro mime h; simp at h
        · intro m mime hm h; simp at h
      | ok content =>
        refine ⟨rfl, ?_, ?_⟩
        · intro mime h; simp at h
        · intro m mime hm h; simp at h
    | some mime =>
      by_cases hst : strStartsWith mime "text" = false
      · refine ⟨?_, ?_, ?_⟩
        · simp [runLoadPreview, hst]
        · intro mime2 h hst2
          simp only [Except.ok.injEq, Option.some.injEq] at h
          simp [runLoadPreview, hst]
        · intro m mime2 hm h
          simp only [Except.ok.injEq, Option.some.injEq] at h
          subst h
          simp [runLoadPreview, hst] at hm
      · have hst2 : strStartsWith mime "text" = true := by
          cases h : strStartsWith mime "text" with
          | true => rfl
          | false => exact absurd h hst
        cases rr with
        | error e =>
          refine ⟨?_, ?_, ?_⟩
          · simp [runLoadPreview, hst2]
          · intro mime2 h hf
            simp only [Except.ok.injEq, Option.some.injEq] at h
            subst h
            exact absurd hf hst
          · intro m mime2 hm h
            simp only [Except.ok.injEq, Option.some.injEq] at h
            subst h
            exact hst2
        | ok content =>
          refine ⟨?_, ?_, ?_⟩
          · simp [runLoadPreview, hst2]
          · intro mime2 h hf
            simp only [Except.ok.injEq, Option.some.injEq] at h
            subst h
            exact absurd hf hst
          · intro m mime2 hm h
            simp only [Except.ok.injEq, Option.some.injEq] at h
            subst h
            exact hst2

/-- C5 witness: inferred non-text content yields no preview Message and no
error. -/
theorem load_preview_content_type_gate_witness :
    runLoadPreview (FsPath.utf8 "a") (Except.ok (some "image/png")) (Except.ok "x")
      = ([PvEvent.inferred], Except.ok ()) :=
  (load_preview_content_type_gate (FsPath.utf8 "a") (Except.ok (some "image/png"))
      (Except.ok "x")).2.1 "image/png" rfl (by decide)

/-- C6 (confirmed): AddPath on an existing path, DeletePath on a missing
path and RenamePath from a missing source each return the distinct
invalid-target error with no filesystem effect. -/
theorem invalid_target_errors (fs : Fs) (p old new_ : FsPath) :
    (fsExists fs p = true →
      runAddPath fs p = ([], Except.error AppError.invalidTargetPath)) ∧
    (fsExists fs p = false →
      runDeletePath fs p = ([], Except.error AppError.invalidTargetPath)) ∧
    (fsExists fs old = false →
      runRenamePath fs old new_ = ([], Except.error AppError.invalidTargetPath)) := by
  refine ⟨fun h => ?_, fun h => ?_, fun h => ?_⟩
  · simp [runAddPath, h]
  · simp [runDeletePath, h]
  · simp [runRenamePath, h]

/-- C6 witness: concrete invalid-target instances of all three tasks. -/
theorem invalid_target_errors_witness :
    runAddPath [(FsPath.utf8 "a", PathKind.file)] (FsPath.utf8 "a")
      = ([], Except.error AppError.invalidTargetPath) ∧
    runDeletePath [] (FsPath.utf8 "b") = ([], Except.error AppError.invalidTargetPath) ∧
    runRenamePath [] (FsPath.utf8 "b") (FsPath.utf8 "c")
      = ([], Except.error AppError.invalidTargetPath) :=
  ⟨(invalid_target_errors [(FsPath.utf8 "a", PathKind.file)] (FsPath.utf8 "a")
      (FsPath.utf8 "a") (FsPath.utf8 "a")).1 (by decide),
   (invalid_target_errors [] (FsPath.utf8 "b") (FsPath.utf8 "b") (FsPath.utf8 "c")).2.1
      (by decide),
   (invalid_target_errors [] (FsPath.utf8 "b") (FsPath.utf8 "b") (FsPath.utf8 "c")).2.2
      (by decide)⟩

/-- C7 (confirmed): in Normal mode, whose table binds the digit keys to
Repeat bindings, the keys 2 then 3 emit nothing while accumulating the
count, and a following Motion key j emits the single Message for that
Motion with repeat count 23 = 2 * 10 + 3 — not a count-2 action followed by
a count-3 action. -/
theorem repeat_count_accumulates :
    (addAndResolve ⟨Mode.normal, [], none⟩ ⟨KeyCode.char '2', []⟩).2 = [] ∧
    (addAndResolve (addAndResolve ⟨Mode.normal, [], none⟩ ⟨KeyCode.char '2', []⟩).1
        ⟨KeyCode.char '3', []⟩).2 = [] ∧
    (addAndResolve (addAndResolve ⟨Mode.normal, [], none⟩ ⟨KeyCode.char '2', []⟩).1
        ⟨KeyCode.char '3', []⟩).1.count = some 23 ∧
    (addAndResolve
        (addAndResolve (addAndResolve ⟨Mode.normal, [], none⟩ ⟨KeyCode.char '2', []⟩).1
          ⟨KeyCode.char '3', []⟩).1
        ⟨KeyCode.char 'j', []⟩).2
      = [Message.moveCursor 23 CursorDirection.down] := by
  decide

/-- C10 (amended): AddPath on a non-existing path creates a directory with
all ancestors when the UTF-8 form ends in a slash; otherwise, when the path
has a parent, creates the missing parent directories and writes an empty
file; the empty path (no parent) is an invalid target; a path with no
UTF-8 form succeeds without creating anything. -/
theorem add_path_cases (fs : Fs) (p : FsPath) (hne : fsExists fs p = false) :
    (∀ s, p = FsPath.utf8 s → strEndsWith s "/" = true →
      runAddPath fs p = ([FsEffect.createDirAll p], Except.ok ())) ∧
    (∀ s par, p = FsPath.utf8 s → strEndsWith s "/" = false → rustParent s = some par →
      runAddPath fs p
        = ([FsEffect.createDirAll (FsPath.utf8 par), FsEffect.writeFile p],
           Except.ok ())) ∧
    (p = FsPath.utf8 "" → runAddPath fs p = ([], Except.error AppError.invalidTargetPath)) ∧
    (p.toStr = none → runAddPath fs p = ([], Except.ok ())) := by
  refine ⟨?_, ?_, ?_, ?_⟩
  · intro s hp hsl
    subst hp
    simp [runAddPath, hne, hsl]
  · intro s par hp hsl hpar
    subst hp
    simp [runAddPath, hne, hsl, hpar]
  · intro hp
    subst hp
    simp only [runAddPath, hne, Bool.false_eq_true, if_false]
    rfl
  · intro hts
    cases p with
    | utf8 s => simp [FsPath.toStr] at hts
    | nonUtf8 i => simp [runAddPath, hne]

/-- C10 witness: a slash-terminated path is created as a directory tree. -/
theorem add_path_cases_witness :
    runAddPath [] (FsPath.utf8 "ab/")
      = ([FsEffect.createDirAll (FsPath.utf8 "ab/")], Except.ok ()) :=
  (add_path_cases [] (FsPath.utf8 "ab/") (by decide)).1 "ab/" rfl (by decide)

/-- C10 counterexample: AddPath of the empty path (which does not exist, has
a UTF-8 form not ending in a slash, and has no parent) returns the
invalid-target error and writes nothing, where the claim promises an empty
file write. -/
theorem add_path_empty_string_cex :
    runAddPath [] (FsPath.utf8 "") = ([], Except.error AppError.invalidTargetPath) ∧
    FsEffect.writeFile (FsPath.utf8 "") ∉ (runAddPath [] (FsPath.utf8 "")).1 ∧
    (runAddPath [] (FsPath.utf8 "")).2 ≠ Except.ok () := by
  refine ⟨rfl, by decide, fun h => ?_⟩
  have h2 : (Except.ok () : Except AppError Unit) = Except.error AppError.invalidTargetPath :=
    h.symm.trans rfl
  exact Except.noConfusion h2

/-- C2 (confirmed): finishing aborts exactly the tracked handles whose task
variant is flagged abort-on-shutdown (must-run variants such as
SaveHistory, DeletePath and RenamePath are never flagged), then settles all
joined outcomes: it returns success iff no task surfaced an error, and
otherwise one aggregate error that collects every surfaced error. -/
theorem finishing_aborts_flagged_and_aggregates (m : TaskManager) (rs : List JoinResult) :
    (∀ t h, (t, h) ∈ m.abort_handles → should_abort_on_finish t = true →
      h ∈ (m.finishing rs).1) ∧
    (∀ h, h ∈ (m.finishing rs).1 →
      ∃ t, (t, h) ∈ m.abort_handles ∧ should_abort_on_finish t = true) ∧
    (∀ hist, should_abort_on_finish (Task.saveHistory hist) = false) ∧
    (∀ p, should_abort_on_finish (Task.deletePath p) = false) ∧
    (∀ p q, should_abort_on_finish (Task.renamePath p q) = false) ∧
    ((m.finishing rs).2 = Except.ok () ↔ ∀ e, JoinResult.failure e ∉ rs) ∧
    (∀ e, JoinResult.failure e ∈ rs →
      ∃ es, (m.finishing rs).2 = Except.error (AppError.aggregate es) ∧ e ∈ es ∧
        ∀ e2 ∈ es, JoinResult.failure e2 ∈ rs) := by
  refine ⟨?_, ?_, fun hist => rfl, fun p => rfl, fun p q => rfl, ?_, ?_⟩
  · intro t h hmem hflag
    exact List.mem_filterMap.mpr ⟨(t, h), hmem, by simp [hflag]⟩
  · intro h hmem
    obtain ⟨⟨t, h2⟩, hmem2, heq⟩ := List.mem_filterMap.mp hmem
    by_cases hf : should_abort_on_finish t
    · simp only [hf, if_true] at heq
      obtain rfl := Option.some.inj heq
      exact ⟨t, hmem2, hf⟩
    · simp [hf] at heq
  · constructor
    · intro hok e hmem
      have hin : e ∈ surfacedErrors rs :=
        List.mem_filterMap.mpr ⟨JoinResult.failure e, hmem, rfl⟩
      by_cases hemp : (surfacedErrors rs).isEmpty
      · rw [List.isEmpty_iff.mp hemp] at hin
        exact absurd hin (List.not_mem_nil e)
      · simp only [TaskManager.finishing, if_neg hemp] at hok
        exact Except.noConfusion hok
    · intro hnone
      have hnil : surfacedErrors rs = [] := by
        refine List.filterMap_eq_nil_iff.mpr ?_
        intro r hr
        cases r with
        | success => rfl
        | cancelled => rfl
        | failure e => exact absurd hr (hnone e)
      simp [TaskManager.finishing, hnil]
  · intro e hmem
    have hin : e ∈ surfacedErrors rs :=
      List.mem_filterMap.mpr ⟨JoinResult.failure e, hmem, rfl⟩
    have hne : surfacedErrors rs ≠ [] := List.ne_nil_of_mem hin
    refine ⟨surfacedErrors rs, ?_, hin, ?_⟩
    · simp only [TaskManager.finishing]
      rw [if_neg (by simpa [List.isEmpty_iff] using hne)]
    · intro e2 he2
      obtain ⟨r, hr, heq⟩ := List.mem_filterMap.mp he2
      cases r with
      | success => exact absurd heq (by simp)
      | cancelled => exact absurd heq (by simp)
      | failure e3 =>
        obtain rfl : e3 = e2 := Option.some.inj heq
        exact hr

/-- C2 witness: one flagged tracked task is aborted, and one surfaced error
makes the result an error rather than success. -/
theorem finishing_aborts_flagged_and_aggregates_witness :
    0 ∈ ((⟨[(Task.emitMessages [], 0)], 1⟩ : TaskManager).finishing
          [JoinResult.failure AppError.invalidTargetPath]).1 ∧
    ((⟨[(Task.emitMessages [], 0)], 1⟩ : TaskManager).finishing
          [JoinResult.failure AppError.invalidTargetPath]).2 ≠ Except.ok () := by
  have h := finishing_aborts_flagged_and_aggregates
      (⟨[(Task.emitMessages [], 0)], 1⟩ : TaskManager)
      [JoinResult.failure AppError.invalidTargetPath]
  refine ⟨h.1 (Task.emitMessages []) 0 (List.Mem.head _) rfl, fun hok => ?_⟩
  exact (h.2.2.2.2.2.1.mp hok AppError.invalidTargetPath) (List.Mem.head _)

/-- The final cache of the enumeration loop is the starting cache followed
by every entry read. -/
theorem enumGo_cache_eq (path : FsPath) (entries : List (ContentKind × String)) :
    ∀ (cache : List (ContentKind × String)) (size : Nat),
      (enumGo path entries cache size).2 = cache ++ entries := by
  induction entries with
  | nil => intro cache size; simp [enumGo]
  | cons e rest ih =>
    intro cache size
    simp only [enumGo]
    by_cases hf : size ≤ (cache ++ [e]).length
    · rw [if_pos hf]
      rw [ih]
      simp
    · rw [if_neg hf]
      rw [ih]
      simp

/-- The Messages sent inside the enumeration loop are exactly one
incremental content Message per flush threshold reached, each carrying the
prefix read so far. -/
theorem enumGo_msgs_eq (path : FsPath) (entries : List (ContentKind × String)) :
    ∀ (cache : List (ContentKind × String)) (size : Nat), 0 < size → cache.length < size →
      (enumGo path entries cache size).1 =
        (specThresholds (cache.length + entries.length) size).map
          (fun s => Message.pathEnumerationContentChanged path ((cache ++ entries).take s)) := by
  induction entries with
  | nil =>
    intro cache size h0 hlt
    have hth : specThresholds (cache.length + ([] : List (ContentKind × String)).length) size
        = [] := by
      rw [specThresholds, dif_neg]
      simp only [List.length_nil]
      omega
    rw [hth]
    simp [enumGo]
  | cons e rest ih =>
    intro cache size h0 hlt
    simp only [enumGo]
    by_cases hf : size ≤ (cache ++ [e]).length
    · rw [if_pos hf]
      rw [List.length_append, List.length_singleton] at hf
      have hsz : size = cache.length + 1 := by omega
      have ih2 := ih (cache ++ [e]) (size * 2) (by omega)
        (by rw [List.length_append, List.length_singleton]; omega)
      have hguard : 0 < size ∧ size ≤ cache.length + (e :: rest).length := by
        simp only [List.length_cons]
        omega
      rw [specThresholds, dif_pos hguard]
      simp only [List.map_cons]
      have hhead : (cache ++ e :: rest).take size = cache ++ [e] := by
        have h1 : cache ++ e :: rest = (cache ++ [e]) ++ rest := by simp
        have h2 : size = (cache ++ [e]).length := by
          rw [List.length_append, List.length_singleton]; omega
        rw [h1, h2]
        exact List.take_left _ _
      rw [hhead]
      have hn : (cache ++ [e]).length + rest.length = cache.length + (e :: rest).length := by
        rw [List.length_append, List.length_singleton, List.length_cons]
        omega
      rw [ih2, hn]
      have h1 : (cache ++ [e]) ++ rest = cache ++ e :: rest := by simp
      rw [h1]
    · rw [if_neg hf]
      rw [List.length_append, List.length_singleton] at hf
      have ih2 := ih (cache ++ [e]) size h0
        (by rw [List.length_append, List.length_singleton]; omega)
      rw [ih2]
      have hn : (cache ++ [e]).length + rest.length = cache.length + (e :: rest).length := by
        rw [List.length_append, List.length_singleton, List.length_cons]
        omega
      have h1 : (cache ++ [e]) ++ rest = cache ++ e :: rest := by simp
      rw [hn, h1]

/-- C3 (confirmed): enumerating a directory with n entries emits one
incremental content Message per flush threshold reached — the thresholds
start at 100 and double after each flush (100, 200, 400, ...) — each
carrying the prefix read so far, and afterwards always one final content
Message carrying exactly the full entry list (hence every entry exactly
once) and a distinct finished Message. -/
theorem enumerate_directory_batches (path : FsPath) (entries : List (ContentKind × String)) :
    enumerateDirectory path entries =
      (specThresholds entries.length 100).map
        (fun s => Message.pathEnumerationContentChanged path (entries.take s))
      ++ [Message.pathEnumerationContentChanged path entries,
          Message.pathEnumerationFinished path] := by
  have h1 := enumGo_msgs_eq path entries [] 100 (by omega) (by simp)
  have h2 := enumGo_cache_eq path entries [] 100
  simp only [List.length_nil, Nat.zero_add, List.nil_append] at h1 h2
  simp only [enumerateDirectory]
  rw [h1, h2]

/-- keyCount distributes over append. -/
theorem keyCount_append (l1 l2 : List (Task × Nat)) (t : Task) :
    keyCount (l1 ++ l2) t = keyCount l1 t + keyCount l2 t := by
  simp [keyCount, List.filter_append]

/-- keyCount on a cons. -/
theorem keyCount_cons (p : Task × Nat) (l : List (Task × Nat)) (t : Task) :
    keyCount (p :: l) t = (if p.1 = t then 1 else 0) + keyCount l t := by
  by_cases h : p.1 = t
  · simp [keyCount, List.filter_cons, h, Nat.add_comm]
  · simp [keyCount, List.filter_cons, h]

/-- A tracked pair contributes to the count of its identity. -/
theorem keyCount_pos_of_mem {l : List (Task × Nat)} {t : Task} {h : Nat}
    (hm : (t, h) ∈ l) : 1 ≤ keyCount l t := by
  have hf : (t, h) ∈ l.filter (fun p => decide (p.1 = t)) :=
    List.mem_filter.mpr ⟨hm, by simp⟩
  have := List.length_pos.mpr (List.ne_nil_of_mem hf)
  simpa [keyCount] using this

/-- A failed lookup means the identity is not tracked. -/
theorem removeByKey_none_count {l : List (Task × Nat)} {t : Task}
    (h : removeByKey l t = none) : keyCount l t = 0 := by
  induction l with
  | nil => rfl
  | cons p rest ih =>
    obtain ⟨t2, h2⟩ := p
    simp only [removeByKey] at h
    by_cases ht : t2 = t
    · rw [if_pos ht] at h
      cases h
    · rw [if_neg ht] at h
      cases hr : removeByKey rest t with
      | some v => rw [hr] at h; cases h
      | none =>
        rw [keyCount_cons]
        simp [ht, ih hr]

/-- A successful lookup splits the list at the first pair with the searched
identity, and the remainder is the two outer parts. -/
theorem removeByKey_some_decomp {l : List (Task × Nat)} {t : Task} {h : Nat}
    {rest : List (Task × Nat)} (hr : removeByKey l t = some (h, rest)) :
    ∃ l1 l2, l = l1 ++ (t, h) :: l2 ∧ rest = l1 ++ l2 ∧ keyCount l1 t = 0 := by
  induction l generalizing rest with
  | nil => cases hr
  | cons p ls ih =>
    obtain ⟨t2, h2⟩ := p
    simp only [removeByKey] at hr
    by_cases ht : t2 = t
    · rw [if_pos ht] at hr
      simp only [Option.some.injEq, Prod.mk.injEq] at hr
      obtain ⟨hh, hrest⟩ := hr
      subst hh
      subst hrest
      subst ht
      exact ⟨[], ls, by simp, by simp, rfl⟩
    · rw [if_neg ht] at hr
      cases hrr : removeByKey ls t with
      | none => rw [hrr] at hr; cases hr
      | some v =>
        obtain ⟨h3, rest3⟩ := v
        rw [hrr] at hr
        simp only [Option.some.injEq, Prod.mk.injEq] at hr
        obtain ⟨hh, hrest⟩ := hr
        subst hh
        obtain ⟨l1, l2, he1, he2, hc⟩ := ih hrr
        refine ⟨(t2, h2) :: l1, l2, ?_, ?_, ?_⟩
        · simp [he1]
        · rw [← hrest, he2]
          simp
        · rw [keyCount_cons]
          simp [ht, hc]

/-- Under the at-most-one invariant, looking up a tracked pair finds exactly
its handle. -/
theorem removeByKey_of_mem {l : List (Task × Nat)} {t : Task} {h : Nat}
    (hinv : ∀ u, keyCount l u ≤ 1) (hm : (t, h) ∈ l) :
    ∃ rest, removeByKey l t = some (h, rest) := by
  induction l with
  | nil => cases hm
  | cons p ls ih =>
    obtain ⟨t2, h2⟩ := p
    by_cases ht : t2 = t
    · subst ht
      rcases List.mem_cons.mp hm with heq | htail
      · obtain ⟨-, hh⟩ := Prod.mk.injEq .. ▸ heq
        subst hh
        exact ⟨ls, by simp [removeByKey]⟩
      · exfalso
        have h1 := keyCount_pos_of_mem htail
        have h2c := hinv t2
        rw [keyCount_cons] at h2c
        simp at h2c
        omega
    · have htail : (t, h) ∈ ls := by
        rcases List.mem_cons.mp hm with heq | htail
        · exfalso
          obtain ⟨hteq, -⟩ := Prod.mk.injEq .. ▸ heq
          exact ht hteq.symm
        · exact htail
      have hinv2 : ∀ u, keyCount ls u ≤ 1 := by
        intro u
        have hu := hinv u
        rw [keyCount_cons] at hu
        by_cases h2u : t2 = u
        · simp only [h2u, if_pos rfl] at hu; omega
        · simp only [if_neg h2u] at hu; omega
      obtain ⟨rest, hr⟩ := ih hinv2 htail
      refine ⟨(t2, h2) :: rest, ?_⟩
      simp only [removeByKey]
      rw [if_neg ht, hr]

/-- run preserves the at-most-one-handle-per-identity invariant. -/
theorem run_keeps_at_most_one (m : TaskManager) (t : Task)
    (hinv : ∀ u, keyCount m.abort_handles u ≤ 1) :
    ∀ u, keyCount ((m.run t).1).abort_handles u ≤ 1 := by
  intro u
  simp only [TaskManager.run]
  cases hr : removeByKey m.abort_handles t with
  | none =>
    simp only
    rw [keyCount_append]
    by_cases hu : t = u
    · subst hu
      rw [removeByKey_none_count hr, keyCount_cons]
      simp [keyCount]
    · have hz : keyCount [(t, m.next_id)] u = 0 := by
        rw [keyCount_cons]
        simp [hu, keyCount]
      rw [hz]
      have := hinv u
      omega
  | some v =>
    obtain ⟨h, rest⟩ := v
    simp only
    obtain ⟨l1, l2, he1, he2, hc1⟩ := removeByKey_some_decomp hr
    subst he2
    rw [keyCount_append, keyCount_append]
    have hinvu := hinv u
    rw [he1, keyCount_append, keyCount_cons] at hinvu
    by_cases hu : t = u
    · subst hu
      simp at hinvu
      have hone : keyCount [(t, m.next_id)] t = 1 := by
        rw [keyCount_cons]
        simp [keyCount]
      rw [hone]
      omega
    · have hz : keyCount [(t, m.next_id)] u = 0 := by
        rw [keyCount_cons]
        simp [hu, keyCount]
      rw [hz]
      simp only [if_neg hu] at hinvu
      omega

/-- abort preserves the at-most-one-handle-per-identity invariant. -/
theorem abort_keeps_at_most_one (m : TaskManager) (t : Task)
    (hinv : ∀ u, keyCount m.abort_handles u ≤ 1) :
    ∀ u, keyCount ((m.abort t).1).abort_handles u ≤ 1 := by
  intro u
  simp only [TaskManager.abort]
  cases hr : removeByKey m.abort_handles t with
  | none => simpa using hinv u
  | some v =>
    obtain ⟨h, rest⟩ := v
    simp only
    obtain ⟨l1, l2, he1, he2, hc1⟩ := removeByKey_some_decomp hr
    subst he2
    rw [keyCount_append]
    have hinvu := hinv u
    rw [he1, keyCount_append, keyCount_cons] at hinvu
    by_cases hu : t = u
    · subst hu
      simp at hinvu
      omega
    · simp only [if_neg hu] at hinvu
      omega

/-- Every state reachable by run/abort calls from a fresh manager satisfies
the at-most-one invariant. -/
theorem applyOps_at_most_one (ops : List TMOp) :
    ∀ m : TaskManager, (∀ u, keyCount m.abort_handles u ≤ 1) →
      ∀ u, keyCount (applyOps m ops).abort_handles u ≤ 1 := by
  induction ops with
  | nil => intro m hm; exact hm
  | cons op rest ih =>
    intro m hm
    cases op with
    | runOp t => exact ih _ (run_keeps_at_most_one m t hm)
    | abortOp t => exact ih _ (abort_keeps_at_most_one m t hm)

/-- C1 (amended): in every state reachable by run/abort calls from a fresh
manager at most one handle per task identity is tracked, and calling run
with a task equal to a tracked one first spawns the new operation and then
invokes exactly that task's old handle for cancellation and removes its
entry, before run returns; the invariant is preserved. -/
theorem run_spawn_then_abort_at_most_one (ops : List TMOp) (t : Task) (h : Nat)
    (hmem : (t, h) ∈ (applyOps TaskManager.new ops).abort_handles) :
    (∀ u, keyCount (applyOps TaskManager.new ops).abort_handles u ≤ 1) ∧
    ((applyOps TaskManager.new ops).run t).2
      = [RunEvent.spawned (applyOps TaskManager.new ops).next_id, RunEvent.aborted h] ∧
    (∀ u, keyCount (((applyOps TaskManager.new ops).run t).1).abort_handles u ≤ 1) := by
  have hinv : ∀ u, keyCount (applyOps TaskManager.new ops).abort_handles u ≤ 1 :=
    applyOps_at_most_one ops TaskManager.new
      (fun u => by simp [TaskManager.new, keyCount])
  obtain ⟨rest, hr⟩ := removeByKey_of_mem hinv hmem
  refine ⟨hinv, ?_, run_keeps_at_most_one _ t hinv⟩
  simp [TaskManager.run, hr]

/-- C1 witness: running the same task twice from a fresh manager spawns the
second operation and then aborts the first's handle. -/
theorem run_spawn_then_abort_at_most_one_witness :
    ((applyOps TaskManager.new [TMOp.runOp Task.optimizeHistory]).run
        Task.optimizeHistory).2
      = [RunEvent.spawned 1, RunEvent.aborted 0] :=
  (run_spawn_then_abort_at_most_one [TMOp.runOp Task.optimizeHistory]
      Task.optimizeHistory 0 (by decide)).2.1

/-- C1 counterexample: with a tracked task of equal identity, run emits the
spawn of the new operation at position 0 and the abort of the old handle at
position 1 of its action sequence — the old handle is not cancelled before
the new operation starts, contrary to the claim's ordering. -/
theorem run_abort_before_spawn_cex :
    (TaskManager.run ⟨[(Task.optimizeHistory, 0)], 1⟩ Task.optimizeHistory).2
      = [RunEvent.spawned 1, RunEvent.aborted 0] ∧
    List.indexOf (RunEvent.spawned 1)
      (TaskManager.run ⟨[(Task.optimizeHistory, 0)], 1⟩ Task.optimizeHistory).2 = 0 ∧
    List.indexOf (RunEvent.aborted 0)
      (TaskManager.run ⟨[(Task.optimizeHistory, 0)], 1⟩ Task.optimizeHistory).2 = 1 := by
  refine ⟨rfl, ?_, ?_⟩ <;> rfl

end Yeet
